import Mathlib

/-!
Verification of the lunasched daemon's scheduling and execution engine.

This file is a shallow embedding, in Lean 4, of the Rust sources of the
lunasched repository (crates `common` and `daemon`), together with theorems
settling the frozen claims about the natural-language specification.

Modelling conventions, used throughout:

* UTC instants (`chrono::DateTime<Utc>`) are integers counting milliseconds;
  `chrono::Duration::seconds(s)` is `s * 1000`.  No code path of the engine
  uses sub-millisecond precision (durations come from `Duration::seconds` and
  `Duration::milliseconds` only).
* Machine integers are `Nat` with explicit `% 2^w` where overflow can occur
  (the release profile of the Rust compiler wraps on overflow).  `as`-casts
  between signed and unsigned widths are modelled bit-faithfully (`toI64`,
  `toU64`, `toU32` below).
* `HashMap`/`DashMap` are association lists keyed by `String` with
  replace-on-insert semantics; iteration order of a Rust `HashMap` is
  unspecified, so the list order stands for one admissible order and theorems
  quantify over all states.
* Effects of third-party crates that are outside this repository are passed
  in as explicit environment values: `cron::Schedule` evaluation, `chrono-tz`
  timezone projection, `chrono::Local` projection, `Utc::now()`, UUID v4
  generation and `rand` jitter draws are fields of `TickEnv` / parameters.
* `serde_json` text columns in the SQLite store are modelled transparently:
  the structured value stands for its JSON text (the `serde_json` crate is
  outside this repository).  Encodings performed by the repository itself
  (`u64::to_string` / `str::parse` for `Every` schedules, signed/unsigned
  casts) are modelled genuinely.
-/

namespace Lunasched

/-! ## Data model (src/common/src/job.rs) -/

/-- `CalendarParams` from src/common/src/job.rs (u32 fields as `Nat`). -/
structure CalendarParams where
  days_of_week : Option (List Nat)
  nth_weekday : Option (Nat × Nat)
  time : Nat × Nat × Nat
deriving DecidableEq, Repr

/-- `ScheduleConfig` from src/common/src/job.rs. -/
inductive ScheduleConfig where
  | Cron (expr : String)
  | Every (seconds : Nat)
  | Calendar (params : CalendarParams)
deriving DecidableEq, Repr

/-- `BackoffStrategy` from src/common/src/job.rs. -/
inductive BackoffStrategy where
  | Fixed
  | Linear
  | Exponential
deriving DecidableEq, Repr

/-- `RetryPolicy` from src/common/src/job.rs (`max_attempts : u32`, delays `u64`). -/
structure RetryPolicy where
  max_attempts : Nat
  backoff_strategy : BackoffStrategy
  initial_delay_seconds : Nat
  max_delay_seconds : Nat
deriving DecidableEq, Repr

/-- `impl Default for RetryPolicy` (src/common/src/job.rs). -/
def defaultRetryPolicy : RetryPolicy :=
  { max_attempts := 0
    backoff_strategy := .Exponential
    initial_delay_seconds := 60
    max_delay_seconds := 3600 }

/-- `ResourceLimits` from src/common/src/job.rs.  `cpu_quota : Option<f32>` is
modelled by the 32-bit pattern of the float (the engine never computes with
it; it only round-trips through the store). -/
structure ResourceLimits where
  timeout_seconds : Option Nat
  max_memory_mb : Option Nat
  cpu_quota : Option Nat
deriving DecidableEq, Repr

/-- `impl Default for ResourceLimits`. -/
def defaultResourceLimits : ResourceLimits :=
  { timeout_seconds := none, max_memory_mb := none, cpu_quota := none }

/-- `JobHooks` from src/common/src/job.rs. -/
structure JobHooks where
  on_failure : Option String
  on_success : Option String
deriving DecidableEq, Repr

/-- `impl Default for JobHooks`. -/
def defaultJobHooks : JobHooks := { on_failure := none, on_success := none }

/-- `JobPriority` from src/common/src/job.rs; `Default` is `Normal`. -/
inductive JobPriority where
  | Low
  | Normal
  | High
  | Critical
deriving DecidableEq, Repr

/-- `ExecutionMode` from src/common/src/job.rs; `Default` is `Sequential`. -/
inductive ExecutionMode where
  | Sequential
  | Parallel
  | Exclusive
deriving DecidableEq, Repr

/-- `NotificationChannel` from src/common/src/job.rs (`HashMap` headers as an
association list). -/
inductive NotificationChannel where
  | Email (toAddr : String) (subject : Option String)
  | Webhook (url : String) (headers : Option (List (String × String)))
  | Discord (webhook_url : String)
  | Slack (webhook_url : String)
deriving DecidableEq, Repr

/-- `NotificationConfig` from src/common/src/job.rs. -/
structure NotificationConfig where
  on_success : Option (List NotificationChannel)
  on_failure : Option (List NotificationChannel)
  on_start : Option (List NotificationChannel)
deriving DecidableEq, Repr

/-- `impl Default for NotificationConfig`. -/
def defaultNotificationConfig : NotificationConfig :=
  { on_success := none, on_failure := none, on_start := none }

/-- `Job` from src/common/src/job.rs.  `JobId(pub String)` is inlined as the
`String` it wraps (the code accesses it as `job.id.0` everywhere);
`env : HashMap<String,String>` is an association list. -/
structure Job where
  id : String
  name : String
  schedule : ScheduleConfig
  command : String
  args : List String
  env : List (String × String)
  enabled : Bool
  owner : String
  retry_policy : RetryPolicy
  resource_limits : ResourceLimits
  jitter_seconds : Nat
  timezone : Option String
  tags : List String
  dependencies : List String
  hooks : JobHooks
  max_concurrent : Nat
  priority : JobPriority
  execution_mode : ExecutionMode
  notification_config : NotificationConfig
deriving DecidableEq, Repr

/-! ## Machine-integer helpers -/

/-- 2^64, the modulus of Rust `u64` arithmetic in the release profile. -/
def U64 : Nat := 2 ^ 64

/-- 2^63. -/
def I64MIN : Nat := 2 ^ 63

/-- Rust `as i64` applied to a `u64` value (bit reinterpretation). -/
def toI64 (n : Nat) : Int :=
  if n < I64MIN then (n : Int) else (n : Int) - (U64 : Int)

/-- Rust `as u64` applied to an `i64` value (bit reinterpretation). -/
def toU64 (i : Int) : Nat := (i % (U64 : Int)).toNat

/-- Rust `as u32` applied to an `i64` value (truncation to the low 32 bits). -/
def toU32 (i : Int) : Nat := (i % ((2 ^ 32 : Nat) : Int)).toNat

/-! ## Backoff (src/daemon/src/scheduler.rs, `calculate_backoff_delay`) -/

/-- `calculate_backoff_delay` from src/daemon/src/scheduler.rs lines 13-31.
`attempt` is `u32`, the delays are `u64`; the products in the `Linear` and
`Exponential` arms are `u64` arithmetic and wrap at `2^64` in the release
profile, hence the explicit `% U64`. -/
def calculate_backoff_delay (attempt : Nat) (strategy : BackoffStrategy)
    (initial_delay max_delay : Nat) : Nat :=
  let delay :=
    match strategy with
    | .Fixed => initial_delay
    | .Linear => (initial_delay * (attempt + 1)) % U64
    | .Exponential => (initial_delay * (2 ^ attempt % U64)) % U64
  min delay max_delay

/-! ## Association lists (model of `HashMap` / `DashMap`) -/

/-- Lookup in an association list (model of `HashMap::get`). -/
def alookup {α : Type} : List (String × α) → String → Option α
  | [], _ => none
  | (k, v) :: t, k2 => if k = k2 then some v else alookup t k2

/-- Remove a key (model of `HashMap::remove` / `DashMap::remove`). -/
def aerase {α : Type} (m : List (String × α)) (k : String) : List (String × α) :=
  m.filter (fun p => !(p.1 = k : Bool))

/-- Insert or replace a binding (model of `HashMap::insert`). -/
def ainsert {α : Type} (m : List (String × α)) (k : String) (v : α) :
    List (String × α) :=
  (k, v) :: aerase m k

/-! ## Decimal text (model of `u64::to_string` and `str::parse::<u64>`)

`Db::add_job` stores an `Every` schedule as `s.to_string()` and
`Db::load_jobs` reads it back with `sched_val.parse().unwrap_or(0)`
(src/daemon/src/db.rs lines 22 and 94).  The canonical decimal rendering and
its parse are modelled genuinely. -/

/-- The ASCII character of a decimal digit. -/
def digitChar (d : Nat) : Char := Char.ofNat (48 + d)

/-- Canonical decimal digits of `n`, most significant first, as characters. -/
def decChars (n : Nat) : List Char :=
  if _h : n < 10 then [digitChar n]
  else decChars (n / 10) ++ [digitChar (n % 10)]
termination_by n
decreasing_by exact Nat.div_lt_self (by omega) (by omega)

/-- `u64::to_string`: canonical decimal rendering. -/
def natToDec (n : Nat) : String := String.mk (decChars n)

/-- Value of a decimal digit character, `none` for a non-digit. -/
def digitVal? (c : Char) : Option Nat :=
  if 48 ≤ c.toNat ∧ c.toNat ≤ 57 then some (c.toNat - 48) else none

/-- Digit values of a character list; `none` if any character is not a digit. -/
def digitsVals? : List Char → Option (List Nat)
  | [] => some []
  | c :: t =>
    match digitVal? c, digitsVals? t with
    | some d, some ds => some (d :: ds)
    | _, _ => none

/-- `str::parse::<u64>`: all-digit, non-empty decimal strings only (the
modulus of `u64` is irrelevant here because the store only ever receives
renderings of `u64` values). -/
def decToNat? (s : String) : Option Nat :=
  match digitsVals? s.data with
  | some (d :: ds) => some ((d :: ds).foldl (fun a d2 => 10 * a + d2) 0)
  | _ => none

/-! ## The persistence store (src/daemon/src/db.rs)

A row of the `jobs` table, as bound by `Db::add_job` (src/daemon/src/db.rs
lines 19-56) and read by `Db::load_jobs` (lines 63-149).  TEXT columns that
hold `serde_json` documents are modelled transparently by the structured
value (`serde_json` is a third-party crate); `none` in an `Option` column
models a column that is missing from an old schema or whose text does not
decode, both of which the loader sends to the documented default. -/

/-- Content of the `schedule_value` TEXT column: a plain string (cron
expression or decimal rendering of an `Every` interval) or the `serde_json`
document of a `CalendarParams`, kept structured. -/
inductive SchedCell where
  | text (s : String)
  | calJson (p : CalendarParams)
deriving DecidableEq, Repr

/-- A row of the `jobs` table. -/
structure JobRow where
  id : String
  name : String
  schedule_type : String
  schedule_value : SchedCell
  command : String
  args : List String
  env : List (String × String)
  enabled : Bool
  owner : String
  retry_policy : Option RetryPolicy
  resource_limits : Option ResourceLimits
  jitter_seconds : Option Int
  timezone : Option String
  tags : Option (List String)
  dependencies : Option (List String)
  hooks : Option JobHooks
  max_concurrent : Option Int
  priority : Option JobPriority
  execution_mode : Option ExecutionMode
  notification_config : Option NotificationConfig
deriving DecidableEq, Repr

/-- The `(schedule_type, schedule_value)` pair bound by `Db::add_job`
(src/daemon/src/db.rs lines 20-24). -/
def schedCellOf : ScheduleConfig → String × SchedCell
  | .Cron s => ("cron", .text s)
  | .Every s => ("every", .text (natToDec s))
  | .Calendar p => ("calendar", .calJson p)

/-- The row written by `Db::add_job` for a job (src/daemon/src/db.rs lines
41-54): `jitter_seconds` is bound `as i64`, `max_concurrent` `as i64`. -/
def mkRow (job : Job) : JobRow :=
  { id := job.id
    name := job.name
    schedule_type := (schedCellOf job.schedule).1
    schedule_value := (schedCellOf job.schedule).2
    command := job.command
    args := job.args
    env := job.env
    enabled := job.enabled
    owner := job.owner
    retry_policy := some job.retry_policy
    resource_limits := some job.resource_limits
    jitter_seconds := some (toI64 job.jitter_seconds)
    timezone := job.timezone
    tags := some job.tags
    dependencies := some job.dependencies
    hooks := some job.hooks
    max_concurrent := some (job.max_concurrent : Int)
    priority := some job.priority
    execution_mode := some job.execution_mode
    notification_config := some job.notification_config }

/-- Text content of a schedule cell.  The `calJson` branch is unreachable for
rows written by `Db::add_job` with `schedule_type` ≠ "calendar". -/
def SchedCell.asText : SchedCell → String
  | .text s => s
  | .calJson _ => ""

/-- The `match sched_type.as_str()` of `Db::load_jobs` (src/daemon/src/db.rs
lines 92-97): "every" parses with `unwrap_or(0)`; "calendar" decodes the
`serde_json` document (the source calls `.unwrap()` and would panic on
undecodable text, which is unreachable for rows written by `Db::add_job`;
the dead branch here returns an arbitrary `CalendarParams`); anything else,
including the explicit "cron" arm and the fallback arm, yields `Cron`. -/
def rowSchedule (t : String) (v : SchedCell) : ScheduleConfig :=
  if t = "cron" then .Cron v.asText
  else if t = "every" then .Every ((decToNat? v.asText).getD 0)
  else if t = "calendar" then
    match v with
    | .calJson p => .Calendar p
    | .text _ => .Calendar ⟨none, none, (0, 0, 0)⟩
  else .Cron v.asText

/-- The job reconstructed from a row by `Db::load_jobs` (src/daemon/src/db.rs
lines 71-141): missing or undecodable optional columns fall back to the
documented defaults, `jitter_seconds` is read as `i64` (default 0) and cast
`as u64`, `max_concurrent` read as `i64` (default 0) and cast `as u32`. -/
def loadJob (r : JobRow) : Job :=
  { id := r.id
    name := r.name
    schedule := rowSchedule r.schedule_type r.schedule_value
    command := r.command
    args := r.args
    env := r.env
    enabled := r.enabled
    owner := r.owner
    retry_policy := r.retry_policy.getD defaultRetryPolicy
    resource_limits := r.resource_limits.getD defaultResourceLimits
    jitter_seconds := toU64 (r.jitter_seconds.getD 0)
    timezone := r.timezone
    tags := r.tags.getD []
    dependencies := r.dependencies.getD []
    hooks := r.hooks.getD defaultJobHooks
    max_concurrent := toU32 (r.max_concurrent.getD 0)
    priority := r.priority.getD .Normal
    execution_mode := r.execution_mode.getD .Sequential
    notification_config := r.notification_config.getD defaultNotificationConfig }

/-- A row of the append-only `history` table (`id` and `run_at` are filled in
by SQLite: INTEGER PRIMARY KEY and `DEFAULT CURRENT_TIMESTAMP`). -/
structure HistoryRow where
  id : Int
  job_id : String
  run_at : String
  status : String
  output : Option String
deriving DecidableEq, Repr

/-- A row of the append-only `retry_attempts` table. -/
structure RetryRow where
  job_id : String
  attempt_number : Nat
  next_retry_at : Option String
  error : String
deriving DecidableEq, Repr

/-- The SQLite store: the `jobs` table keyed by id (PRIMARY KEY, upserted by
`INSERT OR REPLACE`), plus the append-only `history` and `retry_attempts`
tables. -/
structure DbState where
  jobsTable : List (String × JobRow)
  history : List HistoryRow
  retryAttempts : List RetryRow
deriving DecidableEq, Repr

/-- `Db::add_job` (src/daemon/src/db.rs lines 19-56): upsert by id. -/
def dbAddJob (d : DbState) (job : Job) : DbState :=
  { d with jobsTable := ainsert d.jobsTable job.id (mkRow job) }

/-- `Db::remove_job` (src/daemon/src/db.rs lines 58-61). -/
def dbRemoveJob (d : DbState) (id : String) : DbState :=
  { d with jobsTable := aerase d.jobsTable id }

/-- `Db::log_history` (src/daemon/src/db.rs lines 151-157); `rowid` and
`run_at` are generated by SQLite and passed in here. -/
def dbLogHistory (d : DbState) (rowid : Int) (runAt : String)
    (job_id status output : String) : DbState :=
  { d with history := d.history ++ [⟨rowid, job_id, runAt, status, some output⟩] }

/-- `Db::log_retry_attempt` (src/daemon/src/db.rs lines 185-192). -/
def dbLogRetryAttempt (d : DbState) (job_id : String) (attempt : Nat)
    (next_retry : Option String) (error : String) : DbState :=
  { d with retryAttempts := d.retryAttempts ++ [⟨job_id, attempt, next_retry, error⟩] }

/-! ## Scheduler core state (src/daemon/src/scheduler.rs) -/

/-- `JobExecutionContext` (src/daemon/src/scheduler.rs lines 69-75). -/
structure JobExecutionContext where
  execution_id : String
  scheduled_time : Int
  start_time : Int
  pid : Option Nat
deriving DecidableEq, Repr

/-- `RetryState` (src/daemon/src/scheduler.rs lines 86-90). -/
structure RetryState where
  attempt : Nat
  next_attempt_at : Option Int
deriving DecidableEq, Repr

/-- The `Scheduler` struct (src/daemon/src/scheduler.rs lines 77-84): the
core maps, the shared `running_jobs` map, and the optional store. -/
structure SchedulerState where
  jobs : List (String × Job)
  last_runs : List (String × Int)
  last_execution_windows : List (String × Int)
  running_jobs : List (String × JobExecutionContext)
  retry_state : List (String × RetryState)
  db : Option DbState
deriving DecidableEq, Repr

/-- `DateTime::<Utc>::MIN_UTC` in milliseconds, the sentinel `Scheduler::tick`
uses for "never ran" (src/daemon/src/scheduler.rs line 177).  The exact value
is irrelevant to the engine beyond being far below every real instant. -/
def MIN_UTC : Int := -8334601228800000

/-- `Scheduler::add_job` (src/daemon/src/scheduler.rs lines 111-116):
persist (upsert) when a store is configured, then insert into `jobs`. -/
def schedAddJob (st : SchedulerState) (job : Job) : SchedulerState :=
  { st with
    db := st.db.map (fun d => dbAddJob d job)
    jobs := ainsert st.jobs job.id job }

/-- `Scheduler::remove_job` (src/daemon/src/scheduler.rs lines 118-123):
delete from the store when configured, remove from `jobs`, and return whether
the id was present.  No other map is touched. -/
def schedRemoveJob (st : SchedulerState) (id : String) : SchedulerState × Bool :=
  ({ st with
      db := st.db.map (fun d => dbRemoveJob d id)
      jobs := aerase st.jobs id },
    (alookup st.jobs id).isSome)

/-- `Scheduler::finish_job` (src/daemon/src/scheduler.rs lines 369-371). -/
def finishJob (st : SchedulerState) (id : String) : SchedulerState :=
  { st with running_jobs := aerase st.running_jobs id }

/-! ## Local time (model of `chrono::NaiveDateTime` as used by the tick) -/

/-- The fields of a `chrono::NaiveDateTime` that the Calendar branch of
`Scheduler::tick` reads or rewrites. -/
structure NaiveDT where
  year : Int
  month : Nat
  day : Nat
  hour : Nat
  minute : Nat
  second : Nat
  nanosecond : Nat
deriving DecidableEq, Repr

/-- `.with_second(0).unwrap().with_nanosecond(0).unwrap()` — truncation of a
local datetime to its minute (src/daemon/src/scheduler.rs lines 239, 246,
251). -/
def NaiveDT.truncMinute (d : NaiveDT) : NaiveDT :=
  { d with second := 0, nanosecond := 0 }

/-- Days since 1970-01-01 of a civil date (Gregorian, proleptic); the
standard civil-from-days inverse used by all date libraries.  Floor division
on `Int`. -/
def daysFromCivil (y : Int) (m d : Nat) : Int :=
  let y2 : Int := if m ≤ 2 then y - 1 else y
  let era : Int := y2 / 400
  let yoe : Int := y2 - era * 400
  let mp : Int := if m > 2 then (m : Int) - 3 else (m : Int) + 9
  let doy : Int := (153 * mp + 2) / 5 + (d : Int) - 1
  let doe : Int := yoe * 365 + yoe / 4 - yoe / 100 + doy
  era * 146097 + doe - 719468

/-- `chrono::Weekday::number_from_monday` of a local datetime: 1 = Monday,
…, 7 = Sunday (1970-01-01 was a Thursday). -/
def NaiveDT.isoWeekday (dt : NaiveDT) : Nat :=
  ((daysFromCivil dt.year dt.month dt.day + 3) % 7).toNat + 1

/-! ## The tick (src/daemon/src/scheduler.rs, `Scheduler::tick`)

Everything the tick obtains from outside the scheduler core — the wall
clock, UUID generation, the `rand` jitter draw, the `cron` crate and the
`chrono-tz`/`chrono::Local` projections — is a field of `TickEnv`. -/

structure TickEnv where
  /-- `Utc::now()` captured at the top of `tick` (line 127), in ms. -/
  now : Int
  /-- `Utc::now()` re-read inside the retry-dispatch loop (line 151). -/
  retryNow : String → Int
  /-- `Uuid::new_v4()` for a retry dispatch of the given job id. -/
  uuidRetry : String → String
  /-- `Uuid::new_v4()` for a regular fire of the given job id. -/
  uuidFire : String → String
  /-- `rand::thread_rng().gen_range(0..jitter*1000)` for the given job id. -/
  jitterDraw : String → Nat
  /-- `cron` crate: `Schedule::from_str(expr)` then `.after(&start).next()`;
  `none` models a parse failure or an exhausted schedule. -/
  cronNext : String → Int → Option Int
  /-- `chrono-tz`: `tz_str.parse::<Tz>()`, and on success the projection
  `t.with_timezone(&tz).naive_local()`. -/
  tzParse : String → Option (Int → NaiveDT)
  /-- `t.with_timezone(&chrono::Local).naive_local()` (line 251). -/
  localProj : Int → NaiveDT
  /-- `chrono::Local::now().naive_local()` (lines 231, 234). -/
  localNowNaive : NaiveDT

/-- The day-filter-and-time match of the Calendar branch
(src/daemon/src/scheduler.rs lines 261-294 and the identical first-run copy
at lines 298-332): the local time must equal `params.time` exactly, and both
configured day filters must pass. -/
def calendarMatches (params : CalendarParams) (now_local : NaiveDT) : Bool :=
  let (h, m, s) := params.time
  if now_local.hour = h ∧ now_local.minute = m ∧ now_local.second = s then
    let day1 :=
      match params.days_of_week with
      | some days => days.contains now_local.isoWeekday
      | none => true
    let day2 :=
      match params.nth_weekday with
      | some (n, weekday) =>
        if now_local.isoWeekday = weekday then
          ((now_local.day - 1) / 7 + 1 = n : Bool)
        else false
      | none => true
    day1 && day2
  else false

/-- The `should_run` computation of the main loop of `Scheduler::tick`
(src/daemon/src/scheduler.rs lines 177-335), returning `some next_run_time`
when the job should run: the Cron, Every (with lag reset) and Calendar (with
minute-window deduplication) branches. -/
def evalSchedule (env : TickEnv) (lastRuns lastWins : List (String × Int))
    (job : Job) : Option Int :=
  let now := env.now
  let last_run := (alookup lastRuns job.id).getD MIN_UTC
  match job.schedule with
  | .Cron expr =>
    let start_time := if last_run = MIN_UTC then now - 1000 else last_run
    match env.cronNext expr start_time with
    | some next => if next ≤ now then some next else none
    | none => none
  | .Every seconds =>
    -- `Duration::seconds(*seconds as i64)` (line 204): a wrapping u64→i64
    -- cast; for seconds ≥ 2^63 the interval is negative.
    let interval : Int := toI64 seconds * 1000
    if last_run = MIN_UTC then some now
    else
      let expected := last_run + interval
      if expected ≤ now then
        if now - expected > interval * 10 then some now else some expected
      else none
  | .Calendar params =>
    let now_local : NaiveDT :=
      match job.timezone with
      | some tzs =>
        match env.tzParse tzs with
        | some proj => proj now
        | none => env.localNowNaive
      | none => env.localNowNaive
    let current_window := now_local.truncMinute
    let last_window : Option NaiveDT :=
      (alookup lastWins job.id).bind (fun dt =>
        match job.timezone with
        | some tzs =>
          match env.tzParse tzs with
          | some proj => some (proj dt).truncMinute
          | none => none
        | none => some (env.localProj dt).truncMinute)
    match last_window with
    | some last_win =>
      if last_win = current_window then none
      else if calendarMatches params now_local then some now else none
    | none =>
      if calendarMatches params now_local then some now else none

/-- The retry-dispatch loop of `Scheduler::tick` (src/daemon/src/scheduler.rs
lines 144-165): for each retry-due id still present in `jobs` and absent from
`running_jobs`, push the job and install a fresh context whose scheduled and
start times are a freshly read `Utc::now()`. -/
def retryLoop (env : TickEnv) (jobs : List (String × Job)) :
    List String → List (String × JobExecutionContext) → List Job →
    List (String × JobExecutionContext) × List Job
  | [], running, due => (running, due)
  | id :: rest, running, due =>
    match alookup jobs id with
    | some job =>
      if (alookup running id).isSome then
        retryLoop env jobs rest running due
      else
        let n := env.retryNow id
        retryLoop env jobs rest
          (ainsert running id ⟨env.uuidRetry id, n, n, none⟩)
          (due ++ [job])
    | none => retryLoop env jobs rest running due

/-- Accumulator of the main loop of `Scheduler::tick`. -/
structure LoopAcc where
  lastRuns : List (String × Int)
  lastWins : List (String × Int)
  running : List (String × JobExecutionContext)
  due : List Job
deriving DecidableEq, Repr

/-- The main loop of `Scheduler::tick` (src/daemon/src/scheduler.rs lines
167-365): skip disabled or running jobs, evaluate the schedule, apply jitter
when configured, record `last_runs` and `last_execution_windows`, and
install an execution context. -/
def mainLoop (env : TickEnv) : List (String × Job) → LoopAcc → LoopAcc
  | [], acc => acc
  | (_, job) :: rest, acc =>
    if job.enabled && (alookup acc.running job.id).isNone then
      match evalSchedule env acc.lastRuns acc.lastWins job with
      | some t0 =>
        let next_run_time :=
          if job.jitter_seconds > 0 then t0 + (env.jitterDraw job.id : Int) else t0
        mainLoop env rest
          { lastRuns := ainsert acc.lastRuns job.id next_run_time
            lastWins := ainsert acc.lastWins job.id next_run_time
            running := ainsert acc.running job.id
              ⟨env.uuidFire job.id, next_run_time, env.now, none⟩
            due := acc.due ++ [job] }
      | none => mainLoop env rest acc
    else mainLoop env rest acc

/-- The `retry_jobs` collection of `Scheduler::tick`
(src/daemon/src/scheduler.rs lines 130-142): the ids whose retry state has
`next_attempt_at ≤ now`. -/
def retryDueIds (now : Int) (retry_state : List (String × RetryState)) :
    List String :=
  retry_state.filterMap (fun p =>
    match p.2.next_attempt_at with
    | some t => if t ≤ now then some p.1 else none
    | none => none)

/-- `Scheduler::tick` (src/daemon/src/scheduler.rs lines 125-367): collect
retry-due ids, dispatch retries, then run the main loop over the job table;
return the updated state and the due-set. -/
def tick (env : TickEnv) (st : SchedulerState) : SchedulerState × List Job :=
  let retry_jobs : List String := retryDueIds env.now st.retry_state
  let rd := retryLoop env st.jobs retry_jobs st.running_jobs []
  let acc := mainLoop env st.jobs
    ⟨st.last_runs, st.last_execution_windows, rd.1, rd.2⟩
  ({ st with
      last_runs := acc.lastRuns
      last_execution_windows := acc.lastWins
      running_jobs := acc.running },
    acc.due)

/-! ## Process supervision / completion (src/daemon/src/scheduler.rs,
`Scheduler::execute_job`)

The spawned child and its awaited exit are external effects; a `RunResult`
carries what the supervisor observed, and `executeJobRun` is the state
transition the daemon performs for one complete run of a job (the read of
`current_attempt` at dispatch, src/daemon/src/scheduler.rs lines 374-379,
followed by the completion callback, lines 438-559).  Between the dispatch
and the completion of a given job no other task writes that job's
`retry_state` entry (the `running_jobs` gate admits one run per id), so the
sequential composition is faithful. -/

/-- What the supervisor observed for one run. -/
inductive RunResult where
  | exited (success : Bool) (exit_code : Int) (stdout stderr : String)
  | waitError (msg : String)
  | spawnError (msg : String)
deriving DecidableEq, Repr

/-- External values consumed by the completion path. -/
structure RunEnv where
  /-- `Utc::now()` read when scheduling the retry (line 492), in ms. -/
  now : Int
  /-- SQLite rowid for any history row inserted by this completion. -/
  rowid : Int
  /-- SQLite `CURRENT_TIMESTAMP` for that history row. -/
  runAt : String
  /-- `chrono` formatting `%Y-%m-%d %H:%M:%S` of an instant (line 505). -/
  fmtTime : Int → String

/-- Insert a history row when a store is configured (`if let Some(ref db)`),
ignoring store errors as the source does. -/
def logHistoryIfDb (renv : RunEnv) (st : SchedulerState)
    (job_id status output : String) : SchedulerState :=
  { st with db := st.db.map (fun d => dbLogHistory d renv.rowid renv.runAt job_id status output) }

/-- One complete run of `job`: `Scheduler::execute_job` from the
`current_attempt` read to the final `finish_job`.  On success the retry
state is cleared and a `success` row logged; on failure with attempts left
the retry state is advanced with the backoff delay
(`Utc::now() + Duration::seconds(delay_secs as i64)`); on exhaustion the
retry state is cleared and a `failed` row logged; a wait error logs an
`Error` row and a spawn error a `SpawnError` row, neither touching
`retry_state`.  The success/failure hook commands are fire-and-forget
process spawns with no effect on this state. -/
def executeJobRun (renv : RunEnv) (st : SchedulerState) (job : Job)
    (result : RunResult) : SchedulerState :=
  let job_id := job.id
  let current_attempt := (alookup st.retry_state job_id).elim 0 (fun s => s.attempt)
  match result with
  | .spawnError msg => finishJob (logHistoryIfDb renv st job_id "SpawnError" msg) job_id
  | .waitError msg => finishJob (logHistoryIfDb renv st job_id "Error" msg) job_id
  | .exited success exit_code stdout stderr =>
    let log_output := "Stdout:\n" ++ stdout ++ "\nStderr:\n" ++ stderr
    if success then
      let st1 := { st with retry_state := aerase st.retry_state job_id }
      finishJob (logHistoryIfDb renv st1 job_id "success" log_output) job_id
    else if current_attempt < job.retry_policy.max_attempts then
      let next_attempt := current_attempt + 1
      let delay := calculate_backoff_delay current_attempt
        job.retry_policy.backoff_strategy
        job.retry_policy.initial_delay_seconds
        job.retry_policy.max_delay_seconds
      let next_attempt_at := renv.now + toI64 delay * 1000
      let st1 := { st with retry_state := ainsert st.retry_state job_id ⟨next_attempt, some next_attempt_at⟩ }
      let st2 := { st1 with db := st1.db.map (fun d =>
        dbLogRetryAttempt d job_id next_attempt (some (renv.fmtTime next_attempt_at))
          ("Exit code: " ++ toString exit_code)) }
      finishJob st2 job_id
    else
      let st1 := { st with retry_state := aerase st.retry_state job_id }
      finishJob (logHistoryIfDb renv st1 job_id "failed" log_output) job_id

/-! ## History query (src/daemon/src/db.rs, `Db::get_history`) -/

/-- Lexicographic less-or-equal on character lists: SQLite compares TEXT
values with the BINARY collation (byte order; identical to code-point order
on the ASCII timestamps stored in `run_at`). -/
def charsLe : List Char → List Char → Bool
  | [], _ => true
  | _ :: _, [] => false
  | a :: as, b :: bs =>
    if a.toNat < b.toNat then true
    else if b.toNat < a.toNat then false
    else charsLe as bs

/-- BINARY-collation less-or-equal on TEXT values. -/
def strLe (a b : String) : Bool := charsLe a.data b.data

/-- Descending order on the `run_at` TEXT column (`ORDER BY run_at DESC`). -/
def runAtDesc (a b : HistoryRow) : Prop := strLe b.run_at a.run_at = true

instance : DecidableRel runAtDesc := fun a b =>
  inferInstanceAs (Decidable (strLe b.run_at a.run_at = true))

instance : IsTotal HistoryRow runAtDesc :=
  ⟨fun a b => by
    show charsLe b.run_at.data a.run_at.data = true ∨
      charsLe a.run_at.data b.run_at.data = true
    generalize b.run_at.data = x
    generalize a.run_at.data = y
    induction x generalizing y with
    | nil => left; rfl
    | cons c cs ih =>
      cases y with
      | nil => right; rfl
      | cons d ds =>
        simp only [charsLe]
        rcases Nat.lt_trichotomy c.toNat d.toNat with h | h | h
        · left; simp [h]
        · rcases ih ds with h2 | h2
          · left; simp [h, Nat.lt_irrefl, h2]
          · right; simp [h, Nat.lt_irrefl, h2]
        · right; simp [h]⟩

instance : IsTrans HistoryRow runAtDesc :=
  ⟨fun a b c h1 h2 => by
    have key : ∀ (u v w : List Char), charsLe u v = true → charsLe v w = true →
        charsLe u w = true := by
      intro u
      induction u with
      | nil => intro v w _ _; rfl
      | cons x xs ih =>
        intro v w hv hw
        cases v with
        | nil => simp [charsLe] at hv
        | cons y ys =>
          cases w with
          | nil => simp [charsLe] at hw
          | cons z zs =>
            simp only [charsLe] at hv hw ⊢
            split_ifs at hv hw ⊢ <;>
              first
              | rfl
              | omega
              | exact ih ys zs hv hw
    exact key c.run_at.data b.run_at.data a.run_at.data h2 h1⟩

/-- `Db::get_history` (src/daemon/src/db.rs lines 159-183): the rows of the
given job, ordered by `run_at` descending, truncated by the constant
`LIMIT 100` of the query.  The function takes no limit argument. -/
def dbGetHistory (rows : List HistoryRow) (job_id : String) : List HistoryRow :=
  (((rows.filter (fun r => r.job_id = job_id)).insertionSort runAtDesc).take 100)

/-! ## Control plane (src/daemon/src/main.rs, the request handlers) -/

/-- The request set as matched by the handler in src/daemon/src/main.rs
lines 195-292 (`GetHistory` is matched there with a `limit` field). -/
inductive Request where
  | AddJob (job : Job)
  | RemoveJob (id : String)
  | ListJobs
  | GetJob (id : String)
  | StartJob (id : String)
  | GetHistory (job_id : String) (limit : Option Nat)
deriving DecidableEq, Repr

/-- `Response` from src/common/src/ipc.rs. -/
inductive Response where
  | Ok
  | Error (msg : String)
  | JobList (jobs : List Job)
  | JobDetail (job : Option Job)
  | HistoryList (entries : List HistoryRow)
deriving DecidableEq, Repr

/-- The owner label derived from the peer's authenticated uid
(src/daemon/src/main.rs line 186). -/
def requesterOwnerOf (uid : Nat) : String :=
  if uid = 0 then "root" else "lunasched"

/-- External values consumed by a `StartJob` dispatch. -/
structure HandlerEnv where
  /-- `Uuid::new_v4()` for the manual-start execution context. -/
  uuid : String
  /-- `chrono::Utc::now()` at the manual start, in ms. -/
  now : Int

/-- One request handled by the connection task (src/daemon/src/main.rs lines
186-292): the owner of an `AddJob` payload is stamped with the requester's
label before dispatch; each arm matches the corresponding `match` arm of the
source.  The process spawn performed by `StartJob` is external I/O; its
state effect here is the execution-context insertion the handler performs. -/
def handleRequest (henv : HandlerEnv) (uid : Nat) (req : Request)
    (st : SchedulerState) : SchedulerState × Response :=
  let requester_owner := requesterOwnerOf uid
  match req with
  | .AddJob job0 =>
    let job := { job0 with owner := requester_owner }
    match alookup st.jobs job.id with
    | some existing =>
      if existing.owner ≠ requester_owner ∧ requester_owner ≠ "root" then
        (st, .Error ("Permission denied: Cannot overwrite job owned by " ++ existing.owner))
      else
        (schedAddJob st job, .Ok)
    | none => (schedAddJob st job, .Ok)
  | .ListJobs => (st, .JobList (st.jobs.map Prod.snd))
  | .StartJob id =>
    match alookup st.jobs id with
    | some job =>
      if job.owner ≠ requester_owner ∧ requester_owner ≠ "root" then
        (st, .Error ("Permission denied: Cannot start job owned by " ++ job.owner))
      else if (alookup st.running_jobs id).isSome then
        (st, .Error "Job is already running")
      else
        ({ st with running_jobs :=
            ainsert st.running_jobs id ⟨henv.uuid, henv.now, henv.now, none⟩ },
          .Ok)
    | none => (st, .Error "Job not found")
  | .RemoveJob id =>
    match alookup st.jobs id with
    | some job =>
      if job.owner ≠ requester_owner ∧ requester_owner ≠ "root" then
        (st, .Error ("Permission denied: Cannot remove job owned by " ++ job.owner))
      else
        ((schedRemoveJob st id).1, .Ok)
    | none => (st, .Error "Job not found")
  | .GetJob id => (st, .JobDetail (alookup st.jobs id))
  | .GetHistory job_id _limit =>
    match st.db with
    | some d => (st, .HistoryList (dbGetHistory d.history job_id))
    | none => (st, .Error "No database configured")

/-! ## Concrete instances used by witnesses and counterexamples -/

/-- A well-formed job with neutral settings, for concrete instantiations. -/
def sampleJob (id owner : String) (sched : ScheduleConfig) : Job :=
  { id := id
    name := id
    schedule := sched
    command := "/bin/true"
    args := []
    env := []
    enabled := true
    owner := owner
    retry_policy := defaultRetryPolicy
    resource_limits := defaultResourceLimits
    jitter_seconds := 0
    timezone := none
    tags := []
    dependencies := []
    hooks := defaultJobHooks
    max_concurrent := 0
    priority := .Normal
    execution_mode := .Sequential
    notification_config := defaultNotificationConfig }

/-- The empty scheduler state (no store configured). -/
def emptySched : SchedulerState := ⟨[], [], [], [], [], none⟩

/-- A state holding one job with fire history and pending retry state. -/
def rmSt : SchedulerState :=
  { jobs := [("x", sampleJob "x" "root" (.Every 5))]
    last_runs := [("x", 1000)]
    last_execution_windows := [("x", 1000)]
    running_jobs := []
    retry_state := [("x", ⟨1, none⟩)]
    db := none }

/-- Two history rows of one job with distinct `run_at` values. -/
def histRowA : HistoryRow := ⟨1, "j", "a", "success", none⟩

/-- See `histRowA`. -/
def histRowB : HistoryRow := ⟨2, "j", "b", "failed", none⟩

/-- The two-row history table. -/
def histRows : List HistoryRow := [histRowA, histRowB]

/-- A state whose store holds `histRows`. -/
def histSt : SchedulerState := { emptySched with db := some ⟨[], histRows, []⟩ }

/-- Modelled from the spec, for comparison against the source only: the
claim's reading of `get_history(job_id, limit?)` — the most recent `limit`
rows, all rows when `limit` is unset, ordered by `run_at` descending. -/
def getHistoryClaim (rows : List HistoryRow) (job_id : String)
    (limit : Option Nat) : List HistoryRow :=
  let sorted := (rows.filter (fun r => r.job_id = job_id)).insertionSort runAtDesc
  match limit with
  | some n => sorted.take n
  | none => sorted

/-- A run environment with concrete values. -/
def wrenv : RunEnv := ⟨5000, 7, "ts", fun _ => "t"⟩

/-- A job with two retry attempts and fixed backoff. -/
def w5Job : Job :=
  { sampleJob "w5" "root" (.Every 1) with retry_policy := ⟨2, .Fixed, 1, 10⟩ }

/-- A state in which `w5Job` has one recorded retry attempt. -/
def w5St : SchedulerState := { emptySched with retry_state := [("w5", ⟨1, some 0⟩)] }

/-- A job with three retry attempts and exponential backoff. -/
def w4Job : Job :=
  { sampleJob "w4" "root" (.Every 1) with retry_policy := ⟨3, .Exponential, 2, 100⟩ }

/-- A row written under the v1 schema (src/daemon/src/migrations.rs lines
76-88): only the base columns exist; every Phase 1 / Phase 2 column is
absent. -/
def oldRow (id name stype : String) (sval : SchedCell) (cmd : String)
    (args : List String) (env : List (String × String)) (enabled : Bool)
    (owner : String) : JobRow :=
  ⟨id, name, stype, sval, cmd, args, env, enabled, owner,
    none, none, none, none, none, none, none, none, none, none, none⟩

/-- Structural prefix test on character lists (kernel-computable). -/
def charsPre : List Char → List Char → Bool
  | [], _ => true
  | _ :: _, [] => false
  | a :: as, b :: bs => a = b && charsPre as bs

/-- Whether a response is one of the handler's permission errors: an
`Error` whose message starts with "Permission denied". -/
def permDenied (r : Response) : Bool :=
  match r with
  | .Error msg => charsPre "Permission denied".data msg.data
  | _ => false

/-- A root-owned job with id "d". -/
def c1RootJob : Job := sampleJob "d" "root" (.Every 5)

/-- A state holding only the root-owned job "d". -/
def c1St : SchedulerState := { emptySched with jobs := [("d", c1RootJob)] }

/-- Modelled from the spec, for comparison against the source only: the
claim's permission rule for AddJob — denied iff a job with the same id
exists and its owner is neither the requester's label nor "root". -/
def addJobClaimDenied (requester : String) (existing : Option Job) : Bool :=
  match existing with
  | some ex => decide (ex.owner ≠ requester ∧ ex.owner ≠ "root")
  | none => false

/-- A fixed local datetime. -/
def dt0 : NaiveDT := ⟨2024, 1, 1, 0, 0, 0, 0⟩

/-- 10:00:05 local on 2024-01-01. -/
def c3dtA : NaiveDT := ⟨2024, 1, 1, 10, 0, 5, 0⟩

/-- 10:00:03 local on 2024-01-01 — the same minute as `c3dtA`, a different
second. -/
def c3dtB : NaiveDT := ⟨2024, 1, 1, 10, 0, 3, 0⟩

/-- A concrete timezone projection: instant 5000 ms lands on second 5,
everything else on second 3 of the same minute. -/
def c3proj : Int → NaiveDT := fun t => if t = 5000 then c3dtA else c3dtB

/-- A Calendar job due at 10:00:05 in zone "Z". -/
def c3Job : Job :=
  { sampleJob "c" "root" (.Calendar ⟨none, none, (10, 0, 5)⟩) with
      timezone := some "Z" }

/-- A tick environment at `now = 5000` whose zone "Z" projects through
`c3proj`. -/
def c3Env : TickEnv :=
  { now := 5000
    retryNow := fun _ => 5000
    uuidRetry := fun _ => "ur"
    uuidFire := fun _ => "uf"
    jitterDraw := fun _ => 0
    cronNext := fun _ _ => none
    tzParse := fun z => if z = "Z" then some c3proj else none
    localProj := fun _ => c3dtB
    localNowNaive := c3dtA }

/-- A state holding `c3Job` whose last execution window is the instant
3000 ms — one-second window keys 10:00:03 vs 10:00:05, same minute. -/
def c3St : SchedulerState :=
  { emptySched with
      jobs := [("c", c3Job)]
      last_execution_windows := [("c", 3000)] }

/-- Modelled from the spec, for comparison against the source only: the
claim's window key — the local datetime truncated to the second
(sub-second part dropped). -/
def secondKeyOf (d : NaiveDT) : NaiveDT := { d with nanosecond := 0 }

/-- A tick environment with `now = 10000` and no jitter. -/
def c7Env : TickEnv :=
  { now := 10000
    retryNow := fun _ => 10000
    uuidRetry := fun _ => "ur"
    uuidFire := fun _ => "uf"
    jitterDraw := fun _ => 0
    cronNext := fun _ _ => none
    tzParse := fun _ => none
    localProj := fun _ => dt0
    localNowNaive := dt0 }

/-- A state holding one `Every 2` job last fired at 1000 ms. -/
def c7St : SchedulerState :=
  { emptySched with
      jobs := [("a", sampleJob "a" "root" (.Every 2))]
      last_runs := [("a", 1000)] }

/-- An `Every` job whose interval `2^64 − 5` wraps to −5 under the source's
`*seconds as i64` cast. -/
def c7xJob : Job := sampleJob "w" "root" (.Every (2 ^ 64 - 5))

/-- A state holding `c7xJob` last fired at 1 000 000 ms. -/
def c7xSt : SchedulerState :=
  { emptySched with
      jobs := [("w", c7xJob)]
      last_runs := [("w", 1000000)] }

/-- A tick environment one second after `c7xSt`'s last fire. -/
def c7xEnv : TickEnv :=
  { c7Env with now := 1001000, retryNow := fun _ => 1001000 }

/-- A state holding one job with a retry due at 500 ms and fire history. -/
def c10St : SchedulerState :=
  { emptySched with
      jobs := [("y", sampleJob "y" "root" (.Every 60))]
      last_runs := [("y", 100)]
      last_execution_windows := [("y", 100)]
      retry_state := [("y", ⟨1, some 500⟩)] }

/-! ## Helper lemmas -/

theorem alookup_ainsert_self {α : Type} (m : List (String × α)) (k : String) (v : α) :
    alookup (ainsert m k v) k = some v := by
  simp [ainsert, alookup]

theorem alookup_aerase {α : Type} (m : List (String × α)) (k k2 : String) :
    alookup (aerase m k) k2 = if k = k2 then none else alookup m k2 := by
  induction m with
  | nil => simp [aerase, alookup]
  | cons p t ih =>
    obtain ⟨k1, v1⟩ := p
    by_cases h1 : k1 = k
    · subst h1
      by_cases h2 : k1 = k2
      · subst h2
        simp [aerase, alookup] at ih ⊢
        simpa [aerase] using ih
      · simp [aerase, alookup, h2] at ih ⊢
        simpa [aerase, h2] using ih
    · by_cases h2 : k1 = k2
      · subst h2
        simp [aerase, alookup, h1] at ih ⊢
        have : ¬ k = k1 := fun hh => h1 hh.symm
        simp [this]
      · simp [aerase, alookup, h1, h2] at ih ⊢
        exact ih

theorem alookup_aerase_self {α : Type} (m : List (String × α)) (k : String) :
    alookup (aerase m k) k = none := by
  simp [alookup_aerase]

theorem alookup_aerase_ne {α : Type} (m : List (String × α)) {k k2 : String}
    (h : k ≠ k2) : alookup (aerase m k) k2 = alookup m k2 := by
  simp [alookup_aerase, h]

theorem alookup_ainsert_ne {α : Type} (m : List (String × α)) {k k2 : String}
    (v : α) (h : k ≠ k2) : alookup (ainsert m k v) k2 = alookup m k2 := by
  simp [ainsert, alookup, h, alookup_aerase_ne m h]

theorem digitVal?_digitChar {d : Nat} (h : d < 10) :
    digitVal? (digitChar d) = some d := by
  interval_cases d <;> decide

theorem digitsVals?_append (xs ys : List Char) :
    digitsVals? (xs ++ ys) =
      match digitsVals? xs, digitsVals? ys with
      | some a, some b => some (a ++ b)
      | _, _ => none := by
  induction xs with
  | nil =>
    cases h : digitsVals? ys <;> simp [digitsVals?, h]
  | cons c t ih =>
    simp only [List.cons_append, digitsVals?, List.append_eq]
    rw [ih]
    cases digitVal? c <;> cases digitsVals? t <;> cases digitsVals? ys <;> simp

theorem decChars_spec (n : Nat) :
    ∃ l, digitsVals? (decChars n) = some l ∧ l ≠ [] ∧
      l.foldl (fun a d => 10 * a + d) 0 = n := by
  induction n using Nat.strong_induction_on with
  | _ n ih =>
    by_cases h : n < 10
    · refine ⟨[n], ?_, by simp, by simp⟩
      simp [decChars, h, digitsVals?, digitVal?_digitChar h]
    · obtain ⟨l0, hl0, hne, hval⟩ := ih (n / 10) (Nat.div_lt_self (by omega) (by omega))
      refine ⟨l0 ++ [n % 10], ?_, by simp, ?_⟩
      · rw [decChars]
        simp only [h, dite_false]
        rw [digitsVals?_append, hl0]
        simp [digitsVals?, digitVal?_digitChar (Nat.mod_lt n (by omega))]
      · rw [List.foldl_append, hval]
        simp [Nat.div_add_mod]

/-- The decimal rendering of any `u64` parses back to itself. -/
theorem decToNat?_natToDec (n : Nat) : decToNat? (natToDec n) = some n := by
  obtain ⟨l, hl, hne, hval⟩ := decChars_spec n
  cases l with
  | nil => exact absurd rfl hne
  | cons d ds => simp [decToNat?, natToDec, hl, hval]

theorem toU64_toI64 (n : Nat) (h : n < U64) : toU64 (toI64 n) = n := by
  have h64 : U64 = 18446744073709551616 := by norm_num [U64]
  have h63 : I64MIN = 9223372036854775808 := by norm_num [I64MIN]
  simp only [toU64, toI64, h64, h63] at h ⊢
  split <;> omega

theorem toU32_natCast (n : Nat) (h : n < 2 ^ 32) : toU32 (n : Int) = n := by
  have h32 : (2 : Nat) ^ 32 = 4294967296 := by norm_num
  simp only [toU32, h32] at h ⊢
  omega

theorem rowSchedule_schedCellOf (s : ScheduleConfig) :
    rowSchedule (schedCellOf s).1 (schedCellOf s).2 = s := by
  cases s with
  | Cron s => simp [schedCellOf, rowSchedule, SchedCell.asText]
  | Every n =>
    simp only [schedCellOf, rowSchedule]
    rw [if_neg (by decide)]
    simp [SchedCell.asText, decToNat?_natToDec]
  | Calendar p =>
    simp only [schedCellOf, rowSchedule]
    rw [if_neg (by decide), if_neg (by decide)]
    simp

theorem toI64_of_lt {n : Nat} (h : n < I64MIN) : toI64 n = (n : Int) := by
  simp [toI64, h]

theorem toU64_zero : toU64 0 = 0 := by simp [toU64]

theorem toU32_zero : toU32 0 = 0 := by simp [toU32]

theorem alookup_mem {α : Type} {l : List (String × α)} {k : String} {v : α}
    (h : alookup l k = some v) : (k, v) ∈ l := by
  induction l with
  | nil => simp [alookup] at h
  | cons p t ih =>
    obtain ⟨k1, v1⟩ := p
    by_cases hk : k1 = k
    · subst hk
      simp [alookup] at h
      simp [h]
    · simp [alookup, hk] at h
      exact List.mem_cons_of_mem _ (ih h)

theorem filterMap_fst_sublist {α : Type} (l : List (String × α))
    (f : (String × α) → Option String) (hf : ∀ p x, f p = some x → x = p.1) :
    List.Sublist (l.filterMap f) (l.map Prod.fst) := by
  induction l with
  | nil => simp
  | cons p t ih =>
    cases hfp : f p with
    | none =>
      rw [List.filterMap_cons, hfp, List.map_cons]
      exact List.Sublist.cons _ ih
    | some x =>
      have hx : x = p.1 := hf p x hfp
      subst hx
      rw [List.filterMap_cons, hfp, List.map_cons]
      exact List.Sublist.cons₂ _ ih

theorem jobs_value_unique (l : List (String × Job))
    (hnd : (l.map Prod.fst).Nodup) (hwf : ∀ p ∈ l, p.2.id = p.1)
    (id : String) (job : Job) (hlk : alookup l id = some job) :
    ∀ p ∈ l, p.2.id = id → p.2 = job := by
  induction l with
  | nil => simp [alookup] at hlk
  | cons q t ih =>
    obtain ⟨k1, v1⟩ := q
    simp only [List.map_cons, List.nodup_cons] at hnd
    by_cases hk : k1 = id
    · subst hk
      simp [alookup] at hlk
      intro p hp hpid
      rcases List.mem_cons.mp hp with h | h
      · rw [h, hlk]
      · exfalso
        have : p.1 = k1 := by rw [← hwf p (List.mem_cons_of_mem _ h), hpid]
        exact hnd.1 (this ▸ List.mem_map_of_mem Prod.fst h)
    · simp only [alookup, hk, if_false] at hlk
      intro p hp hpid
      rcases List.mem_cons.mp hp with h | h
      · exfalso
        subst h
        have h2 : v1.id = k1 := hwf (k1, v1) (List.mem_cons_self _ _)
        exact hk (by rw [← h2]; exact hpid)
      · exact ih hnd.2 (fun p hp => hwf p (List.mem_cons_of_mem _ hp)) hlk p h hpid

theorem evalSchedule_every_lower (env : TickEnv) (lr lw : List (String × Int))
    (job : Job) (s : Nat) (t : Int) (hs : s < I64MIN)
    (hsched : job.schedule = .Every s)
    (hlk : alookup lr job.id = some t) (hne : t ≠ MIN_UTC) :
    ∀ t0, evalSchedule env lr lw job = some t0 → t + (s : Int) * 1000 ≤ t0 := by
  intro t0 h
  simp only [evalSchedule, hsched, hlk, Option.getD_some, toI64_of_lt hs] at h
  rw [if_neg hne] at h
  split_ifs at h with h1 h2
  · simp only [Option.some.injEq] at h
    omega
  · simp only [Option.some.injEq] at h
    omega

theorem retryLoop_frame (env : TickEnv) (jobs : List (String × Job)) :
    ∀ (rlist : List String) (running : List (String × JobExecutionContext))
      (due : List Job) (id : String), id ∉ rlist →
      alookup (retryLoop env jobs rlist running due).1 id = alookup running id := by
  intro rlist
  induction rlist with
  | nil => intro running due id _; rfl
  | cons r rest ih =>
    intro running due id hid
    have hr : r ≠ id := fun h => hid (h ▸ List.mem_cons_self _ _)
    have hrest : id ∉ rest := fun h => hid (List.mem_cons_of_mem _ h)
    simp only [retryLoop]
    cases alookup jobs r with
    | none => exact ih running due id hrest
    | some job =>
      cases hrun : alookup running r with
      | some c =>
        simp only [hrun, Option.isSome_some, if_true]
        exact ih running due id hrest
      | none =>
        simp only [hrun, Option.isSome_none, Bool.false_eq_true, if_false]
        rw [ih _ _ id hrest]
        exact alookup_ainsert_ne _ _ hr

theorem retryLoop_due_mono (env : TickEnv) (jobs : List (String × Job)) :
    ∀ (rlist : List String) (running : List (String × JobExecutionContext))
      (due : List Job),
      ∃ ext, (retryLoop env jobs rlist running due).2 = due ++ ext := by
  intro rlist
  induction rlist with
  | nil => intro running due; exact ⟨[], by simp [retryLoop]⟩
  | cons r rest ih =>
    intro running due
    simp only [retryLoop]
    cases alookup jobs r with
    | none => exact ih running due
    | some job =>
      cases hrun : alookup running r with
      | some c =>
        simp only [hrun, Option.isSome_some, if_true]
        exact ih running due
      | none =>
        simp only [hrun, Option.isSome_none, Bool.false_eq_true, if_false]
        obtain ⟨ext, hext⟩ := ih
          (ainsert running r ⟨env.uuidRetry r, env.retryNow r, env.retryNow r, none⟩)
          (due ++ [job])
        exact ⟨[job] ++ ext, by rw [hext, List.append_assoc]⟩

theorem retryLoop_dispatch (env : TickEnv) (jobs : List (String × Job))
    (id : String) (job : Job) (hjob : alookup jobs id = some job) :
    ∀ (rlist : List String) (running : List (String × JobExecutionContext))
      (due : List Job), rlist.Nodup → id ∈ rlist → alookup running id = none →
      alookup (retryLoop env jobs rlist running due).1 id =
        some ⟨env.uuidRetry id, env.retryNow id, env.retryNow id, none⟩
      ∧ job ∈ (retryLoop env jobs rlist running due).2 := by
  intro rlist
  induction rlist with
  | nil => intro running due _ hmem; simp at hmem
  | cons r rest ih =>
    intro running due hnd hmem hnone
    simp only [List.nodup_cons] at hnd
    by_cases hr : r = id
    · subst hr
      simp only [retryLoop, hjob, hnone, Option.isSome_none, Bool.false_eq_true, if_false]
      constructor
      · rw [retryLoop_frame env jobs rest _ _ r hnd.1]
        exact alookup_ainsert_self _ _ _
      · obtain ⟨ext, hext⟩ := retryLoop_due_mono env jobs rest
          (ainsert running r ⟨env.uuidRetry r, env.retryNow r, env.retryNow r, none⟩)
          (due ++ [job])
        rw [hext]
        simp
    · have hmem2 : id ∈ rest := by
        rcases List.mem_cons.mp hmem with h | h
        · exact absurd h.symm hr
        · exact h
      simp only [retryLoop]
      cases alookup jobs r with
      | none => exact ih running due hnd.2 hmem2 hnone
      | some jr =>
        cases hrun : alookup running r with
        | some c =>
          simp only [hrun, Option.isSome_some, if_true]
          exact ih running due hnd.2 hmem2 hnone
        | none =>
          simp only [hrun, Option.isSome_none, Bool.false_eq_true, if_false]
          refine ih _ _ hnd.2 hmem2 ?_
          rw [alookup_ainsert_ne _ _ hr]
          exact hnone

theorem mainLoop_running_frame (env : TickEnv) :
    ∀ (l : List (String × Job)) (acc : LoopAcc) (id : String)
      (ctx : JobExecutionContext), alookup acc.running id = some ctx →
      alookup (mainLoop env l acc).running id = some ctx
      ∧ alookup (mainLoop env l acc).lastRuns id = alookup acc.lastRuns id
      ∧ alookup (mainLoop env l acc).lastWins id = alookup acc.lastWins id := by
  intro l
  induction l with
  | nil => intro acc id ctx h; exact ⟨h, rfl, rfl⟩
  | cons q rest ih =>
    intro acc id ctx h
    obtain ⟨k, j⟩ := q
    by_cases hjid : j.id = id
    · have hrun : (alookup acc.running j.id).isNone = false := by
        rw [hjid, h]; rfl
      simp only [mainLoop, hrun, Bool.and_false, Bool.false_eq_true, if_false]
      exact ih acc id ctx h
    · simp only [mainLoop]
      by_cases hg : (j.enabled && (alookup acc.running j.id).isNone) = true
      · rw [if_pos hg]
        cases evalSchedule env acc.lastRuns acc.lastWins j with
        | none => exact ih acc id ctx h
        | some t0 =>
          obtain ⟨h1, h2, h3⟩ := ih
            { lastRuns := ainsert acc.lastRuns j.id
                (if j.jitter_seconds > 0 then t0 + (env.jitterDraw j.id : Int) else t0)
              lastWins := ainsert acc.lastWins j.id
                (if j.jitter_seconds > 0 then t0 + (env.jitterDraw j.id : Int) else t0)
              running := ainsert acc.running j.id
                ⟨env.uuidFire j.id,
                  if j.jitter_seconds > 0 then t0 + (env.jitterDraw j.id : Int) else t0,
                  env.now, none⟩
              due := acc.due ++ [j] } id ctx
            (by rw [alookup_ainsert_ne _ _ hjid]; exact h)
          refine ⟨h1, ?_, ?_⟩
          · rw [h2]
            exact alookup_ainsert_ne _ _ hjid
          · rw [h3]
            exact alookup_ainsert_ne _ _ hjid
      · rw [if_neg hg]
        exact ih acc id ctx h

theorem mainLoop_due_mono (env : TickEnv) :
    ∀ (l : List (String × Job)) (acc : LoopAcc),
      ∃ ext, (mainLoop env l acc).due = acc.due ++ ext := by
  intro l
  induction l with
  | nil => intro acc; exact ⟨[], by simp [mainLoop]⟩
  | cons q rest ih =>
    intro acc
    obtain ⟨k, j⟩ := q
    simp only [mainLoop]
    by_cases hg : (j.enabled && (alookup acc.running j.id).isNone) = true
    · rw [if_pos hg]
      cases evalSchedule env acc.lastRuns acc.lastWins j with
      | none => exact ih acc
      | some t0 =>
        obtain ⟨ext, hext⟩ := ih
          { lastRuns := ainsert acc.lastRuns j.id
              (if j.jitter_seconds > 0 then t0 + (env.jitterDraw j.id : Int) else t0)
            lastWins := ainsert acc.lastWins j.id
              (if j.jitter_seconds > 0 then t0 + (env.jitterDraw j.id : Int) else t0)
            running := ainsert acc.running j.id
              ⟨env.uuidFire j.id,
                if j.jitter_seconds > 0 then t0 + (env.jitterDraw j.id : Int) else t0,
                env.now, none⟩
            due := acc.due ++ [j] }
        exact ⟨[j] ++ ext, by rw [hext]; simp⟩
    · rw [if_neg hg]
      exact ih acc

theorem mainLoop_every_lower (env : TickEnv) (id : String) (job : Job) (s : Nat)
    (hs : s < I64MIN) (hsched : job.schedule = .Every s) :
    ∀ (l : List (String × Job)) (acc : LoopAcc) (t : Int),
      (∀ p ∈ l, p.2.id = id → p.2 = job) →
      alookup acc.lastRuns id = some t → MIN_UTC < t →
      ∀ t2, alookup (mainLoop env l acc).lastRuns id = some t2 →
        t2 = t ∨ (s : Int) * 1000 ≤ t2 - t := by
  intro l
  induction l with
  | nil =>
    intro acc t _ hlk _ t2 h2
    simp only [mainLoop] at h2
    rw [hlk] at h2
    injection h2 with h3
    exact Or.inl h3.symm
  | cons q rest ih =>
    intro acc t hl hlk hmin t2 h2
    obtain ⟨k, j⟩ := q
    have htail : ∀ p ∈ rest, p.2.id = id → p.2 = job :=
      fun p hp => hl p (List.mem_cons_of_mem _ hp)
    simp only [mainLoop] at h2
    by_cases hg : (j.enabled && (alookup acc.running j.id).isNone) = true
    · rw [if_pos hg] at h2
      cases hev : evalSchedule env acc.lastRuns acc.lastWins j with
      | none =>
        rw [hev] at h2
        exact ih acc t htail hlk hmin t2 h2
      | some t0 =>
        rw [hev] at h2
        set nrt := if j.jitter_seconds > 0 then t0 + (env.jitterDraw j.id : Int) else t0
          with hnrtdef
        have hge : t0 ≤ nrt := by
          rw [hnrtdef]
          split <;> omega
        by_cases hjid : j.id = id
        · have hjj : j = job := hl (k, j) (List.mem_cons_self _ _) hjid
          have hlkj : alookup acc.lastRuns j.id = some t := by
            rw [hjid]
            exact hlk
          have hlow : t + (s : Int) * 1000 ≤ t0 := by
            refine evalSchedule_every_lower env acc.lastRuns acc.lastWins j s t hs ?_ hlkj ?_ t0 hev
            · rw [hjj]
              exact hsched
            · intro he
              rw [he] at hmin
              exact absurd hmin (lt_irrefl _)
          have hlk2 : alookup (ainsert acc.lastRuns j.id nrt) id = some nrt := by
            rw [hjid]
            exact alookup_ainsert_self _ _ _
          have hmin2 : MIN_UTC < nrt := by omega
          rcases ih _ nrt htail hlk2 hmin2 t2 h2 with h | h
          · right
            omega
          · right
            omega
        · have hlk2 : alookup (ainsert acc.lastRuns j.id nrt) id = some t := by
            rw [alookup_ainsert_ne _ _ hjid]
            exact hlk
          exact ih _ t htail hlk2 hmin t2 h2
    · rw [if_neg hg] at h2
      exact ih acc t htail hlk hmin t2 h2

theorem retryDueIds_mem (now : Int) (retry_state : List (String × RetryState))
    (id : String) (a : Nat) (T : Int)
    (hretry : alookup retry_state id = some ⟨a, some T⟩) (hT : T ≤ now) :
    id ∈ retryDueIds now retry_state := by
  apply List.mem_filterMap.mpr
  refine ⟨(id, ⟨a, some T⟩), alookup_mem hretry, ?_⟩
  simp [hT]

theorem retryDueIds_nodup (now : Int) (retry_state : List (String × RetryState))
    (hnd : (retry_state.map Prod.fst).Nodup) :
    (retryDueIds now retry_state).Nodup := by
  refine List.Nodup.sublist (filterMap_fst_sublist _ _ ?_) hnd
  intro p x h
  cases hn : p.2.next_attempt_at with
  | none => simp [hn] at h
  | some t =>
    simp only [hn] at h
    split_ifs at h
    injection h with h2
    exact h2.symm

/-! ## Claim theorems -/

/-- Claim C2, counterexample: `Scheduler::remove_job` does not drop the
`retry_state` entry of the removed job — in `rmSt` the job "x" has a retry
entry, and after `remove_job("x")` the entry is still there, contradicting
the claim that `remove_job` drops any `retry_state` entry for the id. -/
theorem remove_job_claim_counterexample :
    ¬ (alookup (schedRemoveJob rmSt "x").1.retry_state "x" = none) := by
  decide

/-- Claim C2, amended: `remove_job(id)` deletes the row from the Store and
the entry from the `jobs` map and returns `true` iff the id was present, and
it leaves `last_runs`, `last_execution_windows`, `retry_state` and
`running_jobs` (hence any currently running execution) untouched. -/
theorem remove_job_behavior (st : SchedulerState) (id : String) :
    alookup (schedRemoveJob st id).1.jobs id = none
    ∧ (schedRemoveJob st id).1.db = st.db.map (fun d => dbRemoveJob d id)
    ∧ (schedRemoveJob st id).2 = (alookup st.jobs id).isSome
    ∧ (schedRemoveJob st id).1.last_runs = st.last_runs
    ∧ (schedRemoveJob st id).1.last_execution_windows = st.last_execution_windows
    ∧ (schedRemoveJob st id).1.retry_state = st.retry_state
    ∧ (schedRemoveJob st id).1.running_jobs = st.running_jobs := by
  refine ⟨?_, rfl, rfl, rfl, rfl, rfl, rfl⟩
  simp [schedRemoveJob, alookup_aerase_self]

/-- Claim C4, counterexample: at `attempt = 64`, `initial = 1`, `max = 5`,
the `u64` power in the Exponential arm wraps to 0, so the computed delay is
`min 0 5 = 0` and not `min (1·2^64) 5 = 5` as the claim's formula states. -/
theorem backoff_claim_counterexample :
    ¬ (calculate_backoff_delay 64 .Exponential 1 5 = min (1 * 2 ^ 64) 5) := by
  decide

/-- Claim C4, amended: the backoff delay is
`Fixed: min(initial, max)`, `Linear: min(initial·(a+1) mod 2^64, max)`,
`Exponential: min(initial·2^a mod 2^64, max)` — the products are `u64`
arithmetic and wrap at `2^64`; when they do not overflow the claim's original
formulas hold — and `attempt` is zero-indexed: the delay scheduled between
the first failure of a job with no retry state and its second try is
computed with `attempt = 0`. -/
theorem backoff_delay_formulas (a init maxd : Nat) (renv : RunEnv)
    (st : SchedulerState) (job : Job) (code : Int) (sout serr : String) :
    calculate_backoff_delay a .Fixed init maxd = min init maxd
    ∧ calculate_backoff_delay a .Linear init maxd = min ((init * (a + 1)) % U64) maxd
    ∧ calculate_backoff_delay a .Exponential init maxd = min ((init * 2 ^ a) % U64) maxd
    ∧ (init * (a + 1) < U64 →
        calculate_backoff_delay a .Linear init maxd = min (init * (a + 1)) maxd)
    ∧ (init * 2 ^ a < U64 →
        calculate_backoff_delay a .Exponential init maxd = min (init * 2 ^ a) maxd)
    ∧ (alookup st.retry_state job.id = none → 0 < job.retry_policy.max_attempts →
        alookup (executeJobRun renv st job (.exited false code sout serr)).retry_state job.id =
          some ⟨1, some (renv.now + toI64 (calculate_backoff_delay 0
            job.retry_policy.backoff_strategy job.retry_policy.initial_delay_seconds
            job.retry_policy.max_delay_seconds) * 1000)⟩) := by
  have hexp : (init * (2 ^ a % U64)) % U64 = (init * 2 ^ a) % U64 := by
    conv_rhs => rw [Nat.mul_mod]
    conv_lhs => rw [Nat.mul_mod]
    rw [Nat.mod_mod_of_dvd _ dvd_rfl]
  refine ⟨rfl, rfl, ?_, ?_, ?_, ?_⟩
  · simp [calculate_backoff_delay, hexp]
  · intro h
    simp [calculate_backoff_delay, Nat.mod_eq_of_lt h]
  · intro h
    simp [calculate_backoff_delay, hexp, Nat.mod_eq_of_lt h]
  · intro hnone hpos
    simp only [executeJobRun, hnone, Option.elim, finishJob, logHistoryIfDb]
    simp only [Bool.false_eq_true, if_false, hpos]
    simp [alookup_ainsert_self]

/-- Claim C4, witness: the amended theorem applied at concrete inputs, each
hypothesis discharged there. -/
theorem backoff_delay_formulas_witness :
    calculate_backoff_delay 2 .Linear 3 100 = min (3 * (2 + 1)) 100
    ∧ calculate_backoff_delay 2 .Exponential 3 100 = min (3 * 2 ^ 2) 100
    ∧ alookup (executeJobRun wrenv emptySched w4Job
        (.exited false 1 "" "")).retry_state w4Job.id =
      some ⟨1, some (wrenv.now + toI64 (calculate_backoff_delay 0
        w4Job.retry_policy.backoff_strategy w4Job.retry_policy.initial_delay_seconds
        w4Job.retry_policy.max_delay_seconds) * 1000)⟩ :=
  ⟨(backoff_delay_formulas 2 3 100 wrenv emptySched w4Job 1 "" "").2.2.2.1 (by decide),
   (backoff_delay_formulas 2 3 100 wrenv emptySched w4Job 1 "" "").2.2.2.2.1 (by decide),
   (backoff_delay_formulas 2 3 100 wrenv emptySched w4Job 1 "" "").2.2.2.2.2 (by decide) (by decide)⟩

/-- Claim C5: the retry state machine of the completion callback.  With
`a` the attempt recorded before the run (0 when absent): a successful exit
clears `retry_state[id]`; a failed exit with `a < max_attempts` installs
`attempt = a + 1` (strict increase) which never exceeds `max_attempts`,
with the next attempt scheduled after the backoff delay; a failed exit with
retries exhausted clears the entry; and a job with `max_attempts = 0` never
holds an entry after any completed run. -/
theorem retry_state_machine (renv : RunEnv) (st : SchedulerState) (job : Job)
    (success : Bool) (code : Int) (sout serr : String) :
    (success = true →
      alookup (executeJobRun renv st job (.exited success code sout serr)).retry_state job.id = none)
    ∧ (success = false →
        (alookup st.retry_state job.id).elim 0 (fun s => s.attempt) < job.retry_policy.max_attempts →
        alookup (executeJobRun renv st job (.exited success code sout serr)).retry_state job.id =
          some ⟨(alookup st.retry_state job.id).elim 0 (fun s => s.attempt) + 1,
            some (renv.now + toI64 (calculate_backoff_delay
              ((alookup st.retry_state job.id).elim 0 (fun s => s.attempt))
              job.retry_policy.backoff_strategy job.retry_policy.initial_delay_seconds
              job.retry_policy.max_delay_seconds) * 1000)⟩
        ∧ (alookup st.retry_state job.id).elim 0 (fun s => s.attempt) + 1 ≤ job.retry_policy.max_attempts)
    ∧ (success = false →
        ¬ (alookup st.retry_state job.id).elim 0 (fun s => s.attempt) < job.retry_policy.max_attempts →
        alookup (executeJobRun renv st job (.exited success code sout serr)).retry_state job.id = none)
    ∧ (job.retry_policy.max_attempts = 0 →
        alookup (executeJobRun renv st job (.exited success code sout serr)).retry_state job.id = none) := by
  refine ⟨?_, ?_, ?_, ?_⟩
  · intro h
    subst h
    simp [executeJobRun, finishJob, logHistoryIfDb, alookup_aerase_self]
  · intro h hlt
    subst h
    simp only [executeJobRun, finishJob, logHistoryIfDb, Bool.false_eq_true, if_false, hlt, if_true]
    exact ⟨alookup_ainsert_self _ _ _, by omega⟩
  · intro h hge
    subst h
    simp only [executeJobRun, finishJob, logHistoryIfDb, Bool.false_eq_true, if_false, hge]
    simp [alookup_aerase_self]
  · intro h0
    cases success with
    | true => simp [executeJobRun, finishJob, logHistoryIfDb, alookup_aerase_self]
    | false =>
      have : ¬ (alookup st.retry_state job.id).elim 0 (fun s => s.attempt) < job.retry_policy.max_attempts := by
        omega
      simp only [executeJobRun, finishJob, logHistoryIfDb, Bool.false_eq_true, if_false, this]
      simp [alookup_aerase_self]

/-- Claim C5, witness: the state machine applied to `w5Job` (two attempts,
fixed backoff) in `w5St` (one attempt recorded), with each hypothesis
discharged at the concrete input. -/
theorem retry_state_machine_witness :
    alookup (executeJobRun wrenv w5St w5Job (.exited true 0 "" "")).retry_state w5Job.id = none
    ∧ (alookup (executeJobRun wrenv w5St w5Job (.exited false 1 "" "")).retry_state w5Job.id =
        some ⟨2, some (wrenv.now + toI64 (calculate_backoff_delay 1 .Fixed 1 10) * 1000)⟩
      ∧ 2 ≤ 2)
    ∧ alookup (executeJobRun wrenv emptySched (sampleJob "z" "root" (.Every 1))
        (.exited false 1 "" "")).retry_state "z" = none :=
  ⟨(retry_state_machine wrenv w5St w5Job true 0 "" "").1 rfl,
   (retry_state_machine wrenv w5St w5Job false 1 "" "").2.1 rfl (by decide),
   (retry_state_machine wrenv emptySched (sampleJob "z" "root" (.Every 1)) false 1 "" "").2.2.2 rfl⟩

/-- Claim C6, counterexample: the handler ignores the requested limit —
with two history rows for job "j" and `limit = 1`, the response carries both
rows, not the single most recent row the claim prescribes. -/
theorem get_history_claim_counterexample :
    ¬ ((handleRequest ⟨"u", 0⟩ 0 (.GetHistory "j" (some 1)) histSt).2 =
        .HistoryList (getHistoryClaim histRows "j" (some 1))) := by
  decide

/-- Claim C6, amended: `get_history(job_id)` takes no limit — the handler's
response is independent of the requested limit — and returns the rows of the
job ordered by `run_at` descending, truncated to at most 100 rows by the
constant `LIMIT 100` of the query. -/
theorem get_history_limit100 (henv : HandlerEnv) (uid : Nat)
    (st : SchedulerState) (d : DbState) (job_id : String) (l1 l2 : Option Nat)
    (hdb : st.db = some d) :
    handleRequest henv uid (.GetHistory job_id l1) st =
      (st, .HistoryList (dbGetHistory d.history job_id))
    ∧ handleRequest henv uid (.GetHistory job_id l1) st =
        handleRequest henv uid (.GetHistory job_id l2) st
    ∧ (dbGetHistory d.history job_id).length ≤ 100
    ∧ (∀ e ∈ dbGetHistory d.history job_id, e.job_id = job_id)
    ∧ (dbGetHistory d.history job_id).Sorted runAtDesc := by
  refine ⟨by simp [handleRequest, hdb], by simp [handleRequest, hdb], ?_, ?_, ?_⟩
  · simp only [dbGetHistory, List.length_take]
    exact Nat.min_le_left _ _
  · intro e he
    simp only [dbGetHistory] at he
    have h1 : e ∈ (d.history.filter (fun r => r.job_id = job_id)).insertionSort runAtDesc :=
      List.mem_of_mem_take he
    have h2 : e ∈ d.history.filter (fun r => r.job_id = job_id) :=
      (List.perm_insertionSort runAtDesc _).mem_iff.mp h1
    exact of_decide_eq_true (List.mem_filter.mp h2).2
  · simp only [dbGetHistory]
    exact List.Pairwise.sublist (List.take_sublist _ _)
      (List.sorted_insertionSort runAtDesc _)

/-- Claim C6, witness: the amended theorem applied to the two-row store
`histSt`, its hypothesis discharged there. -/
theorem get_history_limit100_witness :
    handleRequest ⟨"u", 0⟩ 0 (.GetHistory "j" (some 1)) histSt =
      (histSt, .HistoryList (dbGetHistory histRows "j"))
    ∧ (dbGetHistory histRows "j").length ≤ 100 :=
  ⟨(get_history_limit100 ⟨"u", 0⟩ 0 histSt ⟨[], histRows, []⟩ "j" (some 1) (some 2) rfl).1,
   (get_history_limit100 ⟨"u", 0⟩ 0 histSt ⟨[], histRows, []⟩ "j" (some 1) (some 2) rfl).2.2.1⟩

/-- Claim C9: a job persisted through `Db::add_job` and reloaded through
`Db::load_jobs` compares equal in every field (given the `u64`/`u32` ranges
of the numeric fields), and a row written under the v1 schema — all optional
columns absent — loads with every optional field at its documented
default. -/
theorem store_roundtrip (job : Job) (hj : job.jitter_seconds < U64)
    (hm : job.max_concurrent < 2 ^ 32) :
    loadJob (mkRow job) = job
    ∧ ∀ id name stype sval cmd args env enabled owner,
        loadJob (oldRow id name stype sval cmd args env enabled owner) =
          { id := id, name := name, schedule := rowSchedule stype sval,
            command := cmd, args := args, env := env, enabled := enabled,
            owner := owner, retry_policy := defaultRetryPolicy,
            resource_limits := defaultResourceLimits, jitter_seconds := 0,
            timezone := none, tags := [], dependencies := [],
            hooks := defaultJobHooks, max_concurrent := 0, priority := .Normal,
            execution_mode := .Sequential,
            notification_config := defaultNotificationConfig } := by
  constructor
  · simp [loadJob, mkRow, rowSchedule_schedCellOf job.schedule,
      toU64_toI64 _ hj, toU32_natCast _ hm]
  · intro id name stype sval cmd args env enabled owner
    simp [loadJob, oldRow, toU64_zero, toU32_zero]

/-- Claim C9, witness: the round trip applied to a concrete job, both range
hypotheses discharged there. -/
theorem store_roundtrip_witness :
    loadJob (mkRow (sampleJob "r" "root" (.Every 3))) = sampleJob "r" "root" (.Every 3)
    ∧ loadJob (oldRow "o" "o" "cron" (.text "* * * * *") "/bin/true" [] [] true "root") =
        { id := "o", name := "o", schedule := rowSchedule "cron" (.text "* * * * *"),
          command := "/bin/true", args := [], env := [], enabled := true,
          owner := "root", retry_policy := defaultRetryPolicy,
          resource_limits := defaultResourceLimits, jitter_seconds := 0,
          timezone := none, tags := [], dependencies := [],
          hooks := defaultJobHooks, max_concurrent := 0, priority := .Normal,
          execution_mode := .Sequential,
          notification_config := defaultNotificationConfig } :=
  ⟨(store_roundtrip (sampleJob "r" "root" (.Every 3)) (by decide) (by decide)).1,
   (store_roundtrip (sampleJob "r" "root" (.Every 3)) (by decide) (by decide)).2
     "o" "o" "cron" (.text "* * * * *") "/bin/true" [] [] true "root"⟩

/-- Claim C1, counterexample: the permission check tests the requester, not
the existing job's owner, against "root".  With requester uid 1000 (owner
label "lunasched") and an existing job owned by "root", the claim's rule is
not met (the existing owner IS "root", so the claim prescribes `Ok` and
replacement), but the daemon responds with a permission error. -/
theorem addjob_claim_counterexample :
    addJobClaimDenied (requesterOwnerOf 1000) (alookup c1St.jobs "d") = false
    ∧ (handleRequest ⟨"u", 0⟩ 1000 (.AddJob (sampleJob "d" "x" (.Every 5))) c1St).2 =
        .Error "Permission denied: Cannot overwrite job owned by root"
    ∧ ¬ ((handleRequest ⟨"u", 0⟩ 1000 (.AddJob (sampleJob "d" "x" (.Every 5))) c1St).2 =
        .Ok) := by
  refine ⟨by decide, by decide, by decide⟩

/-- Claim C1, amended: on AddJob the daemon stamps `owner` with the
requester's authenticated label; if a job with the same id exists, its owner
differs from the requester's label, and the requester's label is not
"root", the response is the permission error and the state is unchanged; in
every other case the job (with stamped owner) is added, replacing any
existing job with that id, and the response is `Ok`. -/
theorem addjob_owner_check (henv : HandlerEnv) (uid : Nat) (job : Job)
    (st : SchedulerState) :
    (∀ ex, alookup st.jobs job.id = some ex →
      ex.owner ≠ requesterOwnerOf uid → requesterOwnerOf uid ≠ "root" →
      handleRequest henv uid (.AddJob job) st =
        (st, .Error ("Permission denied: Cannot overwrite job owned by " ++ ex.owner)))
    ∧ (∀ ex, alookup st.jobs job.id = some ex →
        (ex.owner = requesterOwnerOf uid ∨ requesterOwnerOf uid = "root") →
        handleRequest henv uid (.AddJob job) st =
          (schedAddJob st { job with owner := requesterOwnerOf uid }, .Ok))
    ∧ (alookup st.jobs job.id = none →
        handleRequest henv uid (.AddJob job) st =
          (schedAddJob st { job with owner := requesterOwnerOf uid }, .Ok))
    ∧ ((handleRequest henv uid (.AddJob job) st).2 = .Ok →
        alookup (handleRequest henv uid (.AddJob job) st).1.jobs job.id =
          some { job with owner := requesterOwnerOf uid }) := by
  refine ⟨?_, ?_, ?_, ?_⟩
  · intro ex hex hne hro
    simp [handleRequest, hex, hne, hro]
  · intro ex hex hor
    have : ¬ (ex.owner ≠ requesterOwnerOf uid ∧ requesterOwnerOf uid ≠ "root") := by
      tauto
    simp [handleRequest, hex, this]
  · intro hnone
    simp [handleRequest, hnone]
  · intro hok
    simp only [handleRequest] at hok ⊢
    cases hex : alookup st.jobs ({ job with owner := requesterOwnerOf uid } : Job).id with
    | none =>
      simp only [hex]
      simp [schedAddJob, alookup_ainsert_self]
    | some ex =>
      simp only [hex] at hok ⊢
      by_cases hc : ex.owner ≠ requesterOwnerOf uid ∧ requesterOwnerOf uid ≠ "root"
      · rw [if_pos hc] at hok
        exact absurd hok (by simp)
      · rw [if_neg hc]
        simp [schedAddJob, alookup_ainsert_self]

/-- Claim C1, witness: the amended rule applied at concrete inputs — a
non-root requester is denied overwriting a root-owned job, and a fresh id is
added with the stamped owner — with every hypothesis discharged there. -/
theorem addjob_owner_check_witness :
    handleRequest ⟨"u", 0⟩ 1000 (.AddJob (sampleJob "d" "x" (.Every 5))) c1St =
      (c1St, .Error ("Permission denied: Cannot overwrite job owned by " ++ c1RootJob.owner))
    ∧ handleRequest ⟨"u", 0⟩ 0 (.AddJob (sampleJob "e" "x" (.Every 5))) emptySched =
      (schedAddJob emptySched
        { sampleJob "e" "x" (.Every 5) with owner := requesterOwnerOf 0 }, .Ok) :=
  ⟨(addjob_owner_check ⟨"u", 0⟩ 1000 (sampleJob "d" "x" (.Every 5)) c1St).1
      c1RootJob (by decide) (by decide) (by decide),
   (addjob_owner_check ⟨"u", 0⟩ 0 (sampleJob "e" "x" (.Every 5)) emptySched).2.2.1
      (by decide)⟩

/-- Claim C8: whenever a request is answered with a permission error or with
`Error("Job not found")`, the handler leaves the scheduler state — the jobs
map, `last_runs`, `last_execution_windows`, `retry_state`, `running_jobs`
and the store — exactly as it was. -/
theorem error_responses_preserve_state (henv : HandlerEnv) (uid : Nat)
    (req : Request) (st st2 : SchedulerState) (r : Response)
    (heq : handleRequest henv uid req st = (st2, r))
    (h : permDenied r = true ∨ r = .Error "Job not found") :
    st2 = st := by
  cases req with
  | AddJob job0 =>
    simp only [handleRequest] at heq
    split at heq
    · split_ifs at heq
      · cases heq; rfl
      · cases heq; exfalso; simp [permDenied] at h
    · cases heq; exfalso; simp [permDenied] at h
  | ListJobs =>
    simp only [handleRequest] at heq
    cases heq; rfl
  | StartJob id =>
    simp only [handleRequest] at heq
    split at heq
    · split_ifs at heq
      · cases heq; rfl
      · cases heq; rfl
      · cases heq; exfalso; simp [permDenied] at h
    · cases heq; rfl
  | RemoveJob id =>
    simp only [handleRequest] at heq
    split at heq
    · split_ifs at heq
      · cases heq; rfl
      · cases heq; exfalso; simp [permDenied] at h
    · cases heq; rfl
  | GetJob id =>
    simp only [handleRequest] at heq
    cases heq; rfl
  | GetHistory job_id limit =>
    simp only [handleRequest] at heq
    split at heq <;> (cases heq; rfl)

/-- Claim C8, witness: the frame theorem applied to a concrete
permission-denied `RemoveJob` and to a concrete not-found `RemoveJob`, each
hypothesis discharged there. -/
theorem error_responses_preserve_state_witness :
    (handleRequest ⟨"u", 0⟩ 1000 (.RemoveJob "d") c1St).1 = c1St
    ∧ (handleRequest ⟨"u", 0⟩ 0 (.RemoveJob "nope") emptySched).1 = emptySched :=
  ⟨error_responses_preserve_state ⟨"u", 0⟩ 1000 (.RemoveJob "d") c1St
      (handleRequest ⟨"u", 0⟩ 1000 (.RemoveJob "d") c1St).1
      (.Error "Permission denied: Cannot remove job owned by root")
      (by decide) (Or.inl (by decide)),
   error_responses_preserve_state ⟨"u", 0⟩ 0 (.RemoveJob "nope") emptySched
      (handleRequest ⟨"u", 0⟩ 0 (.RemoveJob "nope") emptySched).1
      (.Error "Job not found")
      (by decide) (Or.inr (by decide))⟩

/-- Claim C7, counterexample: the interval is computed through the wrapping
cast `*seconds as i64` (src/daemon/src/scheduler.rs line 204).  For
`s = 2^64 − 5` the cast yields −5, so `expected = last_run − 5s` is always
past, the lag reset fires the job afresh at `now`, and one tick one second
after the last fire records a new fire only 1000 ms later — far below the
claimed `t2 − t ≥ s` separation. -/
theorem every_claim_counterexample :
    (tick c7xEnv c7xSt).2 = [c7xJob]
    ∧ alookup c7xSt.last_runs "w" = some 1000000
    ∧ alookup (tick c7xEnv c7xSt).1.last_runs "w" = some 1001000
    ∧ ¬ (((2 ^ 64 - 5 : Nat) : Int) * 1000 ≤ 1001000 - 1000000) := by
  refine ⟨by decide, by decide, by decide, by decide⟩

/-- Claim C7, amended: for a job with schedule `Every(s)` where `s < 2^63`
(so the source's `*seconds as i64` cast is the identity) whose last recorded
fire is `t`, one tick either leaves the recorded instant unchanged or
advances it by at least `s` seconds — the jitter draw is non-negative, and
the lag reset only moves the instant further forward — so successive
recorded fire instants satisfy `t2 − t ≥ s` (hence `≥ s − j_max` for any
jitter bound `j_max ≥ 0`, and `≥ s` when jitter is 0).  For `s ≥ 2^63` the
cast wraps negative and the bound fails (see the counterexample). -/
theorem every_schedule_min_separation (env : TickEnv) (st : SchedulerState)
    (id : String) (job : Job) (s : Nat) (t t2 : Int)
    (hs : s < I64MIN)
    (hnd : (st.jobs.map Prod.fst).Nodup)
    (hwf : ∀ p ∈ st.jobs, p.2.id = p.1)
    (hjob : alookup st.jobs id = some job)
    (hsched : job.schedule = .Every s)
    (hlast : alookup st.last_runs id = some t)
    (hmin : MIN_UTC < t)
    (hres : alookup (tick env st).1.last_runs id = some t2) :
    t2 = t ∨ ((s : Int) * 1000 ≤ t2 - t
      ∧ ∀ jmax : Int, 0 ≤ jmax → (s : Int) * 1000 - jmax ≤ t2 - t) := by
  simp only [tick] at hres
  have hl := jobs_value_unique st.jobs hnd hwf id job hjob
  rcases mainLoop_every_lower env id job s hs hsched st.jobs _ t hl hlast hmin t2 hres with h | h
  · exact Or.inl h
  · exact Or.inr ⟨h, fun jmax hj => by omega⟩

/-- Claim C7 (amended), witness: an `Every 2` job last fired at 1000 ms
fires at 3000 ms on a tick at 10000 ms — separation exactly `s` — with
every hypothesis discharged at the concrete input. -/
theorem every_schedule_min_separation_witness :
    (3000 : Int) = 1000 ∨ (((2 : Nat) : Int) * 1000 ≤ 3000 - 1000
      ∧ ∀ jmax : Int, 0 ≤ jmax → ((2 : Nat) : Int) * 1000 - jmax ≤ 3000 - 1000) :=
  every_schedule_min_separation c7Env c7St "a" (sampleJob "a" "root" (.Every 2)) 2
    1000 3000 (by decide) (by decide) (by decide) (by decide) (by decide)
    (by decide) (by decide) (by decide)

/-- Claim C3, counterexample: the tick's Calendar window key is the local
time truncated to the minute, not to the second.  In `c3St` the stored
window projects to 10:00:03 and now projects to 10:00:05 — different
one-second keys, and the time and day filters match — so by the claim the
job is due; but the minute keys are equal, and the tick fires nothing. -/
theorem calendar_window_claim_counterexample :
    secondKeyOf (c3proj 3000) ≠ secondKeyOf (c3proj c3Env.now)
    ∧ calendarMatches ⟨none, none, (10, 0, 5)⟩ (c3proj c3Env.now) = true
    ∧ (tick c3Env c3St).2 = [] := by
  refine ⟨by decide, by decide, by decide⟩

/-- Claim C3, amended: for a Calendar job whose timezone parses, the tick's
window-deduplication key is the local time truncated to the MINUTE: the
evaluation returns `none` exactly when the stored window, projected into the
job's zone and truncated to the minute, equals the current local time
truncated to the minute, or the Calendar time and day filters do not match;
otherwise the job fires at `now`. -/
theorem calendar_window_minute_dedup (env : TickEnv)
    (lr lw : List (String × Int)) (job : Job) (params : CalendarParams)
    (tzs : String) (proj : Int → NaiveDT)
    (hsched : job.schedule = .Calendar params)
    (htz : job.timezone = some tzs)
    (hproj : env.tzParse tzs = some proj) :
    evalSchedule env lr lw job =
      (match alookup lw job.id with
       | some w =>
         if (proj w).truncMinute = (proj env.now).truncMinute then none
         else if calendarMatches params (proj env.now) then some env.now else none
       | none =>
         if calendarMatches params (proj env.now) then some env.now else none)
    ∧ (evalSchedule env lr lw job = none ↔
        (∃ w, alookup lw job.id = some w ∧
          (proj w).truncMinute = (proj env.now).truncMinute)
        ∨ calendarMatches params (proj env.now) = false) := by
  have heq : evalSchedule env lr lw job =
      (match alookup lw job.id with
       | some w =>
         if (proj w).truncMinute = (proj env.now).truncMinute then none
         else if calendarMatches params (proj env.now) then some env.now else none
       | none =>
         if calendarMatches params (proj env.now) then some env.now else none) := by
    simp only [evalSchedule, hsched, htz, hproj]
    cases halw : alookup lw job.id <;> simp [halw]
  refine ⟨heq, ?_⟩
  rw [heq]
  cases halw : alookup lw job.id with
  | none =>
    simp only [halw]
    cases hm : calendarMatches params (proj env.now) <;> simp [hm]
  | some w =>
    simp only [halw]
    by_cases hkey : (proj w).truncMinute = (proj env.now).truncMinute
    · simp [hkey]
    · cases hm : calendarMatches params (proj env.now) <;> simp [hkey, hm]

/-- Claim C3 (amended), witness: the characterization applied to the
concrete zone projection `c3proj`, every hypothesis discharged there. -/
theorem calendar_window_minute_dedup_witness :
    evalSchedule c3Env [] c3St.last_execution_windows c3Job =
      (match alookup c3St.last_execution_windows c3Job.id with
       | some w =>
         if (c3proj w).truncMinute = (c3proj c3Env.now).truncMinute then none
         else if calendarMatches ⟨none, none, (10, 0, 5)⟩ (c3proj c3Env.now) then
           some c3Env.now
         else none
       | none =>
         if calendarMatches ⟨none, none, (10, 0, 5)⟩ (c3proj c3Env.now) then
           some c3Env.now
         else none) :=
  (calendar_window_minute_dedup c3Env [] c3St.last_execution_windows c3Job
    ⟨none, none, (10, 0, 5)⟩ "Z" c3proj rfl rfl rfl).1

/-- Claim C10: when the tick dispatches a retry — an id whose retry entry
has `next_attempt_at ≤ now`, absent from `running_jobs` and still present in
`jobs` — it adds the job to the due-set and installs a fresh execution
context with `scheduled_time = start_time =` the freshly read now, while
`last_runs`, `last_execution_windows` and the whole `retry_state` map
(including the dispatched id's attempt counter and `next_attempt_at`) are
left unchanged. -/
theorem retry_dispatch_frame (env : TickEnv) (st : SchedulerState)
    (id : String) (job : Job) (a : Nat) (T : Int)
    (hnd : (st.retry_state.map Prod.fst).Nodup)
    (hretry : alookup st.retry_state id = some ⟨a, some T⟩)
    (hT : T ≤ env.now)
    (hrun : alookup st.running_jobs id = none)
    (hjob : alookup st.jobs id = some job) :
    job ∈ (tick env st).2
    ∧ alookup (tick env st).1.running_jobs id =
        some ⟨env.uuidRetry id, env.retryNow id, env.retryNow id, none⟩
    ∧ alookup (tick env st).1.last_runs id = alookup st.last_runs id
    ∧ alookup (tick env st).1.last_execution_windows id =
        alookup st.last_execution_windows id
    ∧ (tick env st).1.retry_state = st.retry_state := by
  have hidmem : id ∈ retryDueIds env.now st.retry_state :=
    retryDueIds_mem env.now st.retry_state id a T hretry hT
  have hnd2 : (retryDueIds env.now st.retry_state).Nodup :=
    retryDueIds_nodup env.now st.retry_state hnd
  obtain ⟨hctx, hdue⟩ := retryLoop_dispatch env st.jobs id job hjob
    (retryDueIds env.now st.retry_state) st.running_jobs [] hnd2 hidmem hrun
  obtain ⟨h1, h2, h3⟩ := mainLoop_running_frame env st.jobs
    ⟨st.last_runs, st.last_execution_windows,
      (retryLoop env st.jobs (retryDueIds env.now st.retry_state)
        st.running_jobs []).1,
      (retryLoop env st.jobs (retryDueIds env.now st.retry_state)
        st.running_jobs []).2⟩ id _ hctx
  obtain ⟨ext, hext⟩ := mainLoop_due_mono env st.jobs
    ⟨st.last_runs, st.last_execution_windows,
      (retryLoop env st.jobs (retryDueIds env.now st.retry_state)
        st.running_jobs []).1,
      (retryLoop env st.jobs (retryDueIds env.now st.retry_state)
        st.running_jobs []).2⟩
  refine ⟨?_, ?_, ?_, ?_, ?_⟩
  · simp only [tick]
    rw [hext]
    exact List.mem_append_left _ hdue
  · simp only [tick]
    exact h1
  · simp only [tick]
    exact h2
  · simp only [tick]
    exact h3
  · simp only [tick]

/-- Claim C10, witness: the frame theorem applied to `c10St` — one retry due
at 500 ms on a tick at 10000 ms — with every hypothesis discharged there. -/
theorem retry_dispatch_frame_witness :
    sampleJob "y" "root" (.Every 60) ∈ (tick c7Env c10St).2
    ∧ alookup (tick c7Env c10St).1.running_jobs "y" =
        some ⟨c7Env.uuidRetry "y", c7Env.retryNow "y", c7Env.retryNow "y", none⟩
    ∧ alookup (tick c7Env c10St).1.last_runs "y" = alookup c10St.last_runs "y"
    ∧ alookup (tick c7Env c10St).1.last_execution_windows "y" =
        alookup c10St.last_execution_windows "y"
    ∧ (tick c7Env c10St).1.retry_state = c10St.retry_state :=
  retry_dispatch_frame c7Env c10St "y" (sampleJob "y" "root" (.Every 60)) 1 500
    (by decide) (by decide) (by decide) (by decide) (by decide)

end Lunasched
